import Mathlib

/-!
Verification of the OpenPSG `edf-ts` EDF/EDF+ codec against its natural-language
specification.

The relevant TypeScript is shallowly embedded in Lean:

* JavaScript numbers are modelled as exact rationals (`ℚ`); the claims under
  study concern the exact affine quantization arithmetic, not IEEE-754 effects.
* JavaScript strings are modelled as `List Char`; the EDF header and TAL
  sub-format are ASCII, and byte buffers are `List Nat` with one entry per
  byte (UTF-8 agrees with code points on the ASCII range used here).
* Exceptions thrown by the writer are modelled with `Except`: a thrown error
  propagates before any output buffer is produced.
* In-place mutation of the caller-supplied header/data (constructor-time
  `configureAnnotationSignal`) is modelled by returning the updated values.

The embedded functions follow `src/edfwriter.ts` and `src/edfreader.ts` as
compiled into `dist/index.js` (the published build), which matches the
`EDFWriter.buildHeader`/`generateAnnotationBlock` of the newer writer source
and the `EDFReader.getRecordTimestamp`/`parseTal` of the newer reader source.
-/

/- Batteries marks the rational-number operations `@[irreducible]`, which
blocks kernel evaluation (`decide`) of the concrete byte-level computations
below; restore the definitional transparency they have in core Lean. -/
set_option allowUnsafeReducibility true in
attribute [semireducible] Rat.add Rat.mul Rat.sub Rat.inv

/-- The JS number `Math.round` used by the writer: round half toward +∞,
`Math.round(x) = ⌊x + 1/2⌋`. -/
def jsRound (x : ℚ) : ℤ := ⌊x + 1 / 2⌋

/-- One signal descriptor as the writer receives it (`EDFSignal` in
`edftypes.ts`).  Numeric fields are rationals, text fields are char lists. -/
structure WSignal where
  label : List Char
  transducerType : List Char
  physicalDimension : List Char
  physicalMin : ℚ
  physicalMax : ℚ
  digitalMin : ℚ
  digitalMax : ℚ
  prefiltering : List Char
  samplesPerRecord : Nat
  reserved : List Char
deriving DecidableEq, Repr

/-- `EDFWriter.physicalToDigital` (edfwriter.ts): affine map to the digital
range, `Math.round`ed and clamped into `[digitalMin, digitalMax]`; returns `0`
when `physicalMax === physicalMin`. -/
def physicalToDigital (value : ℚ) (signal : WSignal) : ℚ :=
  if signal.physicalMax = signal.physicalMin then 0
  else
    max signal.digitalMin (min signal.digitalMax
      ((jsRound ((value - signal.physicalMin) * (signal.digitalMax - signal.digitalMin)
        / (signal.physicalMax - signal.physicalMin) + signal.digitalMin) : ℤ) : ℚ))

/-- `EDFReader.digitalToPhysical` (edfreader.ts): inverse affine map; returns
`0` when `digitalMax === digitalMin`. -/
def digitalToPhysical (digital : ℚ) (signal : WSignal) : ℚ :=
  if signal.digitalMax = signal.digitalMin then 0
  else
    signal.physicalMin +
      (digital - signal.digitalMin) * (signal.physicalMax - signal.physicalMin)
        / (signal.digitalMax - signal.digitalMin)

/-- Claim C8: both conversions are total, and the degenerate ranges short-circuit:
`digitalToPhysical` returns `0` for every input when `digitalMax == digitalMin`,
and `physicalToDigital` returns `0` for every input when
`physicalMax == physicalMin`, so no division by zero is ever attempted. -/
theorem degenerate_ranges_convert_to_zero (signal : WSignal) (x : ℚ) :
    (signal.digitalMax = signal.digitalMin → digitalToPhysical x signal = 0) ∧
    (signal.physicalMax = signal.physicalMin → physicalToDigital x signal = 0) := by
  constructor
  · intro h
    simp [digitalToPhysical, h]
  · intro h
    simp [physicalToDigital, h]

/-- Witness for C8 at a concrete degenerate signal and input. -/
theorem degenerate_ranges_convert_to_zero_witness :
    digitalToPhysical 7 ⟨[], [], [], 0, 0, 5, 5, [], 1, []⟩ = 0 ∧
    physicalToDigital 7 ⟨[], [], [], 3, 3, 0, 9, [], 1, []⟩ = 0 :=
  ⟨(degenerate_ranges_convert_to_zero ⟨[], [], [], 0, 0, 5, 5, [], 1, []⟩ 7).1 rfl,
   (degenerate_ranges_convert_to_zero ⟨[], [], [], 3, 3, 0, 9, [], 1, []⟩ 7).2 rfl⟩

/-- Claim C7: for a signal with `digitalMin ≤ digitalMax` and
`physicalMin ≠ physicalMax`, the encoded digital value is exactly
`round((value - physicalMin)*(digitalMax - digitalMin)/(physicalMax - physicalMin)
 + digitalMin)` clamped into `[digitalMin, digitalMax]`, and in particular it is
never outside that range, for every physical input (also out-of-range ones). -/
theorem physicalToDigital_clamped (signal : WSignal) (value : ℚ)
    (hd : signal.digitalMin ≤ signal.digitalMax)
    (hp : signal.physicalMin ≠ signal.physicalMax) :
    physicalToDigital value signal =
      max signal.digitalMin (min signal.digitalMax
        ((jsRound ((value - signal.physicalMin) * (signal.digitalMax - signal.digitalMin)
          / (signal.physicalMax - signal.physicalMin) + signal.digitalMin) : ℤ) : ℚ)) ∧
    signal.digitalMin ≤ physicalToDigital value signal ∧
    physicalToDigital value signal ≤ signal.digitalMax := by
  have hne : ¬ signal.physicalMax = signal.physicalMin := fun h => hp h.symm
  refine ⟨by simp [physicalToDigital, hne], ?_, ?_⟩
  · rw [physicalToDigital, if_neg hne]
    exact le_max_left _ _
  · rw [physicalToDigital, if_neg hne]
    exact max_le hd (min_le_left _ _)

/-- Witness for C7: a physical value far above `physicalMax` still encodes
inside the digital range. -/
theorem physicalToDigital_clamped_witness :
    (0 : ℚ) ≤ 255 ∧ ((-10 : ℚ) ≠ 10) ∧
    physicalToDigital 1000 ⟨[], [], [], -10, 10, 0, 255, [], 1, []⟩ ≤ 255 :=
  ⟨by norm_num, by norm_num,
    (physicalToDigital_clamped ⟨[], [], [], -10, 10, 0, 255, [], 1, []⟩ 1000
      (by norm_num) (by norm_num)).2.2⟩

/-- Claim C2: for a signal with `digitalMin < digitalMax` and
`physicalMin ≠ physicalMax`, any physical sample inside
`[physicalMin, physicalMax]` survives the write/read quantization
(`physicalToDigital` then `digitalToPhysical`, the conversions applied by
`EDFWriter.write` and `EDFReader.readSignal` to each sample) to within one
quantization step `(physicalMax - physicalMin) / (digitalMax - digitalMin)`. -/
theorem quantization_roundtrip (signal : WSignal) (v : ℚ)
    (hd : signal.digitalMin < signal.digitalMax)
    (hp : signal.physicalMin ≠ signal.physicalMax)
    (hv1 : signal.physicalMin ≤ v) (hv2 : v ≤ signal.physicalMax) :
    |digitalToPhysical (physicalToDigital v signal) signal - v| ≤
      (signal.physicalMax - signal.physicalMin) /
        (signal.digitalMax - signal.digitalMin) := by
  obtain ⟨lab, tr, dim, pm, pM, dm, dM, pre, spr, res⟩ := signal
  simp only at hd hp hv1 hv2 ⊢
  have hpmM : pm < pM := lt_of_le_of_ne (le_trans hv1 hv2) hp
  have hP : (0 : ℚ) < pM - pm := by linarith
  have hD : (0 : ℚ) < dM - dm := by linarith
  have hdne : ¬ (dM = dm) := by intro h; rw [h] at hd; exact lt_irrefl _ hd
  have hpne : ¬ (pM = pm) := fun h => hp h.symm
  obtain ⟨dstar, hdstar⟩ : ∃ x : ℚ, x = (v - pm) * (dM - dm) / (pM - pm) + dm := ⟨_, rfl⟩
  obtain ⟨r, hrdef⟩ : ∃ z : ℤ, z = jsRound dstar := ⟨_, rfl⟩
  obtain ⟨c, hc⟩ : ∃ x : ℚ, x = max dm (min dM (r : ℚ)) := ⟨_, rfl⟩
  have hencode : physicalToDigital v ⟨lab, tr, dim, pm, pM, dm, dM, pre, spr, res⟩ = c := by
    rw [hc, hrdef, hdstar]
    simp [physicalToDigital, hpne]
  have hdecode :
      digitalToPhysical c ⟨lab, tr, dim, pm, pM, dm, dM, pre, spr, res⟩ =
        pm + (c - dm) * (pM - pm) / (dM - dm) := by
    simp [digitalToPhysical, hdne]
  -- bounds on the ideal digital value
  have hds1 : dm ≤ dstar := by
    rw [hdstar]
    have h0 : 0 ≤ (v - pm) * (dM - dm) / (pM - pm) :=
      div_nonneg (mul_nonneg (by linarith) (le_of_lt hD)) (le_of_lt hP)
    linarith
  have hds2 : dstar ≤ dM := by
    rw [hdstar]
    have h1 : (v - pm) * (dM - dm) / (pM - pm) ≤ dM - dm := by
      rw [div_le_iff₀ hP]
      nlinarith
    linarith
  -- bounds on the rounded value
  have hr1 : (r : ℚ) ≤ dstar + 1 / 2 := by
    rw [hrdef, jsRound]; exact Int.floor_le _
  have hr2 : dstar - 1 / 2 < (r : ℚ) := by
    rw [hrdef, jsRound]
    have := Int.lt_floor_add_one (dstar + 1 / 2)
    linarith
  -- the clamped value is within 1/2 of the ideal one
  have hclose : |c - dstar| ≤ 1 / 2 := by
    rw [abs_le, hc]
    rcases le_total (r : ℚ) dm with h1 | h1
    · rw [min_eq_right (le_trans h1 (le_of_lt hd)), max_eq_left h1]
      constructor <;> linarith
    · rcases le_total (r : ℚ) dM with h2 | h2
      · rw [min_eq_right h2, max_eq_right h1]
        constructor <;> linarith
      · rw [min_eq_left h2, max_eq_right (le_of_lt hd)]
        constructor <;> linarith
  rw [hencode, hdecode]
  have heq : pm + (c - dm) * (pM - pm) / (dM - dm) - v =
      (c - dstar) * ((pM - pm) / (dM - dm)) := by
    rw [hdstar]
    field_simp
    ring
  rw [heq, abs_mul, abs_of_pos (div_pos hP hD)]
  have hstep : (0 : ℚ) < (pM - pm) / (dM - dm) := div_pos hP hD
  nlinarith [abs_nonneg (c - dstar)]

/-- Witness for C2 at a concrete signal and in-range sample. -/
theorem quantization_roundtrip_witness :
    ((-100 : ℚ) < 100) ∧ ((-1 : ℚ) ≠ 1) ∧
    |digitalToPhysical (physicalToDigital (1/3) ⟨[], [], [], -1, 1, -100, 100, [], 1, []⟩)
        ⟨[], [], [], -1, 1, -100, 100, [], 1, []⟩ - 1/3| ≤ (1 - (-1)) / (100 - (-100)) :=
  ⟨by norm_num, by norm_num,
    quantization_roundtrip ⟨[], [], [], -1, 1, -100, 100, [], 1, []⟩ (1/3)
      (by norm_num) (by norm_num) (by norm_num) (by norm_num)⟩

/-- The TAL field separator byte 0x14. -/
def sepChar : Char := Char.ofNat 20

/-- The TAL duration marker byte 0x15. -/
def durChar : Char := Char.ofNat 21

/-- The TAL terminator byte 0x00. -/
def nulChar : Char := Char.ofNat 0

/-- Decimal digit character, `d` expected below 10. -/
def digitChar (d : Nat) : Char :=
  if d = 0 then '0' else if d = 1 then '1' else if d = 2 then '2'
  else if d = 3 then '3' else if d = 4 then '4' else if d = 5 then '5'
  else if d = 6 then '6' else if d = 7 then '7' else if d = 8 then '8' else '9'

/-- Is `c` an ASCII decimal digit? -/
def isDigitCh (c : Char) : Bool := 48 ≤ c.toNat && c.toNat ≤ 57

/-- Fuel-driven decimal rendering of a natural number (the recursion is on the
fuel so that concrete evaluation reduces in the kernel). -/
def natToCharsAux : Nat → Nat → List Char
  | 0, _ => []
  | fuel + 1, n =>
    if n < 10 then [digitChar n]
    else natToCharsAux fuel (n / 10) ++ [digitChar (n % 10)]

/-- Model of JS `String(n)` for a non-negative integer: decimal digits. -/
def natToChars (n : Nat) : List Char := natToCharsAux (n + 1) n

/-- Model of JS `String(z)` for an integer. -/
def intToChars (z : ℤ) : List Char :=
  if z < 0 then '-' :: natToChars z.natAbs else natToChars z.natAbs

/-- Is `c` JS whitespace (the kinds that occur in EDF headers)? -/
def isSpaceCh (c : Char) : Bool := c = ' '

/-- Model of JS `String.prototype.trim` (leading and trailing whitespace). -/
def jsTrim (s : List Char) : List Char :=
  ((s.dropWhile isSpaceCh).reverse.dropWhile isSpaceCh).reverse

/-- Model of JS `String.prototype.split(sep)` for a one-character separator:
splits at every occurrence, keeping empty pieces, never returning `[]`. -/
def jsSplit (sep : Char) : List Char → List (List Char)
  | [] => [[]]
  | c :: rest =>
    match jsSplit sep rest with
    | [] => [[c]]
    | h :: t => if c = sep then [] :: h :: t else (c :: h) :: t

/-- The writer's `field` helper (edfwriter.ts `buildHeader`):
`val.padEnd(length).substring(0, length)` — pad with spaces on the right to
`len`, then truncate to exactly `len` characters. -/
def fieldPad (s : List Char) (len : Nat) : List Char :=
  (s ++ List.replicate (len - s.length) ' ').take len

/-- Numeric value of a list of decimal digit characters. -/
def digitsVal (s : List Char) : Nat :=
  s.foldl (fun a c => a * 10 + (c.toNat - 48)) 0

/-- Model of JS `parseInt(s)`: skip leading whitespace, optional sign, then the
longest digit run; `none` models `NaN` (no digits). -/
def jsParseInt (s : List Char) : Option ℤ :=
  let t := s.dropWhile isSpaceCh
  let signNeg := t.headD ' ' = '-'
  let body := if signNeg || (t.headD ' ' = '+') then t.tail else t
  let ds := body.takeWhile isDigitCh
  if ds.isEmpty then none
  else if signNeg then some (-(digitsVal ds : ℤ))
  else some (digitsVal ds)

/-- Fractional value of a list of decimal digit characters (digits after the
decimal point). -/
def fracVal (s : List Char) : ℚ :=
  (s.foldr (fun c a => ((c.toNat - 48 : ℕ) + a) / 10) 0)

/-- Model of JS `parseFloat(s)` on the grammar actually produced and consumed
by the EDF codec: optional sign, digit run, optional `.` and fraction digit
run, ignoring any trailing garbage; `none` models `NaN`.  (The exponent and
`Infinity` forms of full JS `parseFloat` never occur in EDF headers or TALs.) -/
def jsParseFloat (s : List Char) : Option ℚ :=
  let t := s.dropWhile isSpaceCh
  let core : List Char → Option ℚ := fun u =>
    let ds := u.takeWhile isDigitCh
    let rest := u.drop ds.length
    match rest with
    | '.' :: rest2 =>
      let fs := rest2.takeWhile isDigitCh
      if ds.isEmpty && fs.isEmpty then none
      else some ((digitsVal ds : ℚ) + fracVal fs)
    | _ => if ds.isEmpty then none else some (digitsVal ds)
  match t with
  | '-' :: rest => (core rest).map (fun q => -q)
  | '+' :: rest => core rest
  | _ => core t

/-- Model of JS `x.toFixed(digits)` for a rational: fixed-point decimal with
`digits` fractional digits, rounding half away from zero on the magnitude. -/
def toFixedChars (q : ℚ) (digits : Nat) : List Char :=
  let scaled : ℤ := ⌊|q| * (10 ^ digits : ℕ) + 1 / 2⌋
  let n : Nat := scaled.toNat
  let ip : Nat := n / 10 ^ digits
  let fpDigits : List Char :=
    if digits = 0 then []
    else
      let f : Nat := n % 10 ^ digits
      let raw := natToChars f
      '.' :: (List.replicate (digits - raw.length) '0' ++ raw)
  (if q < 0 then ['-'] else []) ++ natToChars ip ++ fpDigits

/-- The recording start timestamp as the writer receives it (a JS `Date`;
the header encoder only reads the calendar components used by
`format(startTime, "dd.MM.yy")` and `format(startTime, "HH.mm.ss")`). -/
structure JSDate where
  year : Nat
  month : Nat
  day : Nat
  hour : Nat
  minute : Nat
  second : Nat
deriving DecidableEq, Repr

/-- The full header as the writer receives it (`EDFHeader` in `edftypes.ts`). -/
structure WHeader where
  version : List Char
  patientId : List Char
  recordingId : List Char
  startTime : JSDate
  headerBytes : ℤ
  reserved : List Char
  dataRecords : Nat
  recordDuration : ℚ
  signalCount : Nat
  signals : List WSignal
deriving DecidableEq, Repr

/-- One annotation as the writer receives it (`EDFAnnotation` in
`edftypes.ts`): onset seconds, optional duration seconds, text. -/
structure Ann where
  onset : ℚ
  duration : Option ℚ
  annText : List Char
deriving DecidableEq, Repr

/-- Two-digit zero-padded rendering of a calendar component. -/
def pad2 (n : Nat) : List Char :=
  if n < 10 then '0' :: natToChars n else natToChars n

/-- `format(startTime, "dd.MM.yy")` from `buildHeader`. -/
def formatDateDDMMYY (d : JSDate) : List Char :=
  pad2 d.day ++ '.' :: pad2 d.month ++ '.' :: pad2 (d.year % 100)

/-- `format(startTime, "HH.mm.ss")` from `buildHeader`. -/
def formatTimeHHMMSS (d : JSDate) : List Char :=
  pad2 d.hour ++ '.' :: pad2 d.minute ++ '.' :: pad2 d.second

/-- Model of JS `Number.prototype.toString` as applied to the numeric signal
fields of the header.  Exact for integers; a non-integral rational is rendered
with `toFixed`-style digits when its decimal expansion terminates within 20
places (every value parsed back out of an 8-char EDF field does), and as
`num/den` otherwise (a shape no claim evaluates). -/
def jsNumToChars (q : ℚ) : List Char :=
  if q.den = 1 then intToChars q.num
  else
    match (List.range 21).find? (fun k => (q * (10 ^ k : ℕ)).den = 1) with
    | some k =>
      (if q < 0 then ['-'] else []) ++
        (let n : Nat := (|q| * (10 ^ k : ℕ)).num.toNat
         natToChars (n / 10 ^ k) ++ '.' ::
           (let raw := natToChars (n % 10 ^ k)
            List.replicate (k - raw.length) '0' ++ raw))
    | none => intToChars q.num ++ '/' :: natToChars q.den

/-- Does `p` occur as a prefix of `s`? (helper for substring containment). -/
def startsWithSeq : List Char → List Char → Bool
  | [], _ => true
  | _ :: _, [] => false
  | p :: ps, c :: cs => p = c && startsWithSeq ps cs

/-- Model of JS `String.prototype.includes(needle)`. -/
def containsSeq (needle : List Char) : List Char → Bool
  | [] => startsWithSeq needle []
  | c :: cs => startsWithSeq needle (c :: cs) || containsSeq needle cs

/-- The label fragment that marks the embedded annotation channel. -/
def annTag : List Char := "EDF Annotations".data

/-- Model of JS `Array.prototype.findIndex` (`none` models `-1`). -/
def jsFindIndex (p : α → Bool) (l : List α) : Option Nat := l.findIdx? p

/-- The rendering of one annotation as a TAL inside
`EDFWriter.generateAnnotationBlock`:
`+<onset.toFixed(3)>[0x15<duration.toFixed(3)>]0x14<text>0x14 0x00`. -/
def renderTal (a : Ann) : List Char :=
  '+' :: toFixedChars a.onset 3 ++
    (match a.duration with
     | some d => durChar :: toFixedChars d 3
     | none => []) ++
    sepChar :: a.annText ++ [sepChar, nulChar]

/-- The duration-less timekeeping TAL emitted at the head of each record's
annotation block: `+<startTime.toFixed(3)>0x14 0x14 0x00`. -/
def timekeepTal (startTime : ℚ) : List Char :=
  '+' :: toFixedChars startTime 3 ++ [sepChar, sepChar, nulChar]

/-- `EDFWriter.generateAnnotationBlock(recordNumber)` (dist build / newer
writer source): empty when no annotation list was supplied; otherwise the
timekeeping TAL for the record's nominal start, then one TAL per annotation
whose onset satisfies `onset >= startTime && onset < endTime`, appended in
order by the `for` loop. -/
def generateAnnotationBlock (anns : Option (List Ann)) (recordDuration : ℚ)
    (recordNumber : Nat) : List Char :=
  match anns with
  | none => []
  | some l =>
    let startTime : ℚ := (recordNumber : ℚ) * recordDuration
    let endTime : ℚ := startTime + recordDuration
    let selected := l.filter (fun a => decide (startTime ≤ a.onset) && decide (a.onset < endTime))
    selected.foldl (fun t a => t ++ renderTal a) (timekeepTal startTime)

/-- `EDFWriter.encodeAnnotationSignal(text, byteLength)`: UTF-8 encode, write
into a zero-filled buffer of `byteLength` bytes (truncating if longer). -/
def encodeAnnotationSignal (text : List Char) (byteLength : Nat) : List Nat :=
  let encoded := text.map Char.toNat
  encoded.take byteLength ++ List.replicate (byteLength - encoded.length) 0

/-- `EDFWriter.calculateMinimumAnnotationSamplesPerRecord(annotations)` (dist
build / newer writer source): `1` for an empty list, else the maximum encoded
annotation-block byte length over all records, halved rounding up
(`Math.ceil(maxBytes / 2)`). -/
def calculateMinimumAnnSamples (anns : List Ann) (recordDuration : ℚ)
    (dataRecords : Nat) : Nat :=
  if anns.isEmpty then 1
  else
    let maxBytes := ((List.range dataRecords).map
      (fun record => (generateAnnotationBlock (some anns) recordDuration record).length)).foldl
        max 0
    (maxBytes + 1) / 2

/-- The annotation signal descriptor appended by
`EDFWriter.configureAnnotationSignal` when the header has none. -/
def annSignalDescriptor : WSignal :=
  ⟨"EDF Annotations".data, [], [], -32768, 32767, -32768, 32767, [], 0, []⟩

/-- Errors thrown by the writer. -/
inductive WError where
  | shapeMismatch
  | dataTooLong (index cur expected : Nat)
  | annOverflow
deriving DecidableEq, Repr

/-- `EDFWriter.configureAnnotationSignal()` (run by the constructor): when a
non-empty annotation list is supplied, find or append the annotation signal,
set its `samplesPerRecord` to the computed minimum, and extend / zero-pad the
caller's signal-data array to `samplesPerRecord * dataRecords` entries
(`Error` when it is too long).  JS mutation of `this.header` / `this.signalData`
is modelled by returning the updated pair. -/
def configureAnnotationSignal (header : WHeader) (signalData : List (List ℚ))
    (anns : Option (List Ann)) : Except WError (WHeader × List (List ℚ)) :=
  match anns with
  | none => .ok (header, signalData)
  | some l =>
    if l.isEmpty then .ok (header, signalData)
    else
      let found := jsFindIndex (fun sig => containsSeq annTag sig.label) header.signals
      let header1 :=
        match found with
        | some _ => header
        | none =>
          { header with
              signals := header.signals ++ [annSignalDescriptor],
              signalCount := header.signalCount + 1,
              headerBytes := (256 : ℤ) + 256 * ((header.signalCount : ℤ) + 1) }
      let annotationIndex :=
        match found with
        | some j => j
        | none => header.signals.length
      let samples := calculateMinimumAnnSamples l header.recordDuration header.dataRecords
      let header2 :=
        { header1 with
            signals := header1.signals.set annotationIndex
              { (header1.signals.getD annotationIndex annSignalDescriptor) with
                  samplesPerRecord := samples } }
      let totalSamples := samples * header2.dataRecords
      let data1 := signalData ++ List.replicate (annotationIndex + 1 - signalData.length) []
      let arr := data1.getD annotationIndex []
      if arr.length = 0 then
        .ok (header2, data1.set annotationIndex (List.replicate totalSamples (0 : ℚ)))
      else if arr.length < totalSamples then
        .ok (header2, data1.set annotationIndex (arr ++ List.replicate (totalSamples - arr.length) (0 : ℚ)))
      else if arr.length > totalSamples then .error .annOverflow
      else .ok (header2, data1)

/-- The column-major run of one signal field in the encoded header:
`signals.map(cb).map(v => field(v, len)).join("")`. -/
def collectFields (signals : List WSignal) (cb : WSignal → List Char) (len : Nat) : List Char :=
  (signals.map (fun s => fieldPad (cb s) len)).flatten

/-- `EDFWriter.buildHeader()` (dist build / newer writer source): fixed-width
space-padded ASCII fields.  `headerBytes` is recomputed as
`256 + 256 * signalCount` (the caller-supplied `header.headerBytes` is never
read), and the reserved field is `"EDF+C"` exactly when a non-empty annotation
list was supplied, else empty. -/
def buildHeader (header : WHeader) (anns : Option (List Ann)) : List Char :=
  let dateStr := formatDateDDMMYY header.startTime
  let timeStr := formatTimeHHMMSS header.startTime
  let headerBytes := 256 + 256 * header.signalCount
  let hasAnns := match anns with | some l => !l.isEmpty | none => false
  let reservedStr : List Char := if hasAnns then "EDF+C".data else []
  fieldPad header.version 8 ++
  fieldPad header.patientId 80 ++
  fieldPad header.recordingId 80 ++
  fieldPad dateStr 8 ++
  fieldPad timeStr 8 ++
  fieldPad (natToChars headerBytes) 8 ++
  fieldPad reservedStr 44 ++
  fieldPad (natToChars header.dataRecords) 8 ++
  fieldPad (toFixedChars header.recordDuration 6) 8 ++
  fieldPad (natToChars header.signalCount) 4 ++
  collectFields header.signals (fun s => s.label) 16 ++
  collectFields header.signals (fun s => s.transducerType) 80 ++
  collectFields header.signals (fun s => s.physicalDimension) 8 ++
  collectFields header.signals (fun s => jsNumToChars s.physicalMin) 8 ++
  collectFields header.signals (fun s => jsNumToChars s.physicalMax) 8 ++
  collectFields header.signals (fun s => jsNumToChars s.digitalMin) 8 ++
  collectFields header.signals (fun s => jsNumToChars s.digitalMax) 8 ++
  collectFields header.signals (fun s => s.prefiltering) 80 ++
  collectFields header.signals (fun s => natToChars s.samplesPerRecord) 8 ++
  collectFields header.signals (fun s => s.reserved) 32

/-- JS truncation toward zero (`ToInt32`'s first step) on a rational. -/
def jsTrunc (q : ℚ) : ℤ := if 0 ≤ q then ⌊q⌋ else -⌊-q⌋

/-- The two bytes `raw & 0xff` and `(raw >> 8) & 0xff` pushed for one sample
(little-endian int16 two's complement; JS bitwise operators work on the low 32
bits of the truncated value). -/
def sampleBytes (raw : ℚ) : List Nat :=
  let u : ℤ := (jsTrunc raw).emod 4294967296
  [(u.emod 256).toNat, ((u.ediv 256).emod 256).toNat]

/-- The validation loop at the head of `EDFWriter.write()` (dist build): for
each signal in order, zero-pad a short sample array to
`samplesPerRecord * dataRecords`, and throw
`Signal i has too many samples (cur > expected)` on a longer one.  The loop
walks `signals[i]` / `signalData[i]` in lockstep; `index` is `i`. -/
def validateSignals (index : Nat) (records : Nat) :
    List WSignal → List (List ℚ) → Except WError (List (List ℚ))
  | _, [] => .ok []
  | [], arrs => .ok arrs
  | signal :: sigs, arr :: arrs =>
    let expectedSamples := signal.samplesPerRecord * records
    if arr.length < expectedSamples then
      match validateSignals (index + 1) records sigs arrs with
      | .error e => .error e
      | .ok rest => .ok ((arr ++ List.replicate (expectedSamples - arr.length) (0 : ℚ)) :: rest)
    else if arr.length > expectedSamples then
      .error (.dataTooLong index arr.length expectedSamples)
    else
      match validateSignals (index + 1) records sigs arrs with
      | .error e => .error e
      | .ok rest => .ok (arr :: rest)

/-- The per-record data bytes assembled by the nested loops of
`EDFWriter.write()`: for every record, for every signal, either the encoded
annotation block (when this is the annotation signal) or the little-endian
int16 encodings of `physicalToDigital` of the record's slice of samples. -/
def writeDataBytes (header : WHeader) (validated : List (List ℚ))
    (anns : Option (List Ann)) : List Nat :=
  let annSignalIndex := jsFindIndex (fun sig => containsSeq annTag sig.label) header.signals
  (List.range header.dataRecords).flatMap (fun recordNumber =>
    (List.range header.signalCount).flatMap (fun s =>
      let signal := header.signals.getD s annSignalDescriptor
      let start := recordNumber * signal.samplesPerRecord
      if annSignalIndex = some s then
        encodeAnnotationSignal
          (generateAnnotationBlock anns header.recordDuration recordNumber)
          (signal.samplesPerRecord * 2)
      else
        (((validated.getD s []).drop start).take signal.samplesPerRecord).flatMap
          (fun sample => sampleBytes (physicalToDigital sample signal))))

/-- `EDFWriter.write()` (dist build): shape check, per-signal length
validation (pad or throw), then header text followed by all record data.
A thrown JS error is an `Except.error`: it propagates before any output
buffer exists. -/
def write (header : WHeader) (signalData : List (List ℚ))
    (anns : Option (List Ann)) : Except WError (List Nat) :=
  if signalData.length ≠ header.signalCount then .error .shapeMismatch
  else
    match validateSignals 0 header.dataRecords header.signals signalData with
    | .error e => .error e
    | .ok validated =>
      .ok ((buildHeader header anns).map Char.toNat ++ writeDataBytes header validated anns)

/-- Model of JS `Number(s)` string conversion: empty/whitespace is `0`, a full
signed decimal (optionally fractional) literal is its value, anything else is
`NaN` (`none`).  Only used for the `dd.mm.yy` / `hh.mm.ss` components. -/
def jsNumber (s : List Char) : Option ℚ :=
  let t := jsTrim s
  if t.isEmpty then some 0
  else
    let core : List Char → Option ℚ := fun u =>
      let ds := u.takeWhile isDigitCh
      let rest := u.drop ds.length
      match rest with
      | ['.'] => if ds.isEmpty then none else some (digitsVal ds)
      | '.' :: rest2 =>
        let fs := rest2.takeWhile isDigitCh
        if fs.length = rest2.length ∧ ¬(ds.isEmpty ∧ fs.isEmpty) then
          some ((digitsVal ds : ℚ) + fracVal fs)
        else none
      | [] => if ds.isEmpty then none else some (digitsVal ds)
      | _ => none
    match t with
    | '-' :: rest => (core rest).map (fun q => -q)
    | '+' :: rest => core rest
    | _ => core t

/-- One parsed signal descriptor as `EDFReader.readHeader` produces it;
numeric fields are `none` when `parseInt`/`parseFloat` yielded `NaN`. -/
structure PSignal where
  label : List Char
  transducerType : List Char
  physicalDimension : List Char
  physicalMin : Option ℚ
  physicalMax : Option ℚ
  digitalMin : Option ℤ
  digitalMax : Option ℤ
  prefiltering : List Char
  samplesPerRecord : Option ℤ
  reserved : List Char
deriving DecidableEq, Repr

/-- The arguments handed to `new Date(fullYear, month - 1, day, hour, minute,
second)` by `readHeader` (calendar normalisation by `Date` is not modelled;
no claim depends on it). -/
structure PStart where
  fullYear : Option ℚ
  monthIndex : Option ℚ
  day : Option ℚ
  hour : Option ℚ
  minute : Option ℚ
  second : Option ℚ
deriving DecidableEq, Repr

/-- The parsed header as `EDFReader.readHeader` produces it. -/
structure PHeader where
  version : List Char
  patientId : List Char
  recordingId : List Char
  startTime : PStart
  headerBytes : Option ℤ
  reserved : List Char
  dataRecords : Option ℤ
  recordDuration : Option ℚ
  signalCount : Option ℤ
  signals : List PSignal
deriving DecidableEq, Repr

/-- `EDFReader.readFieldText(signalCount, start, end, signalIndex)`: the
column-major signal field slice starting at
`256 + start * signalCount + (end - start) * signalIndex`. -/
def readFieldText (text : List Char) (signalCount start endPos signalIndex : Nat) : List Char :=
  (text.drop (256 + start * signalCount + (endPos - start) * signalIndex)).take (endPos - start)

/-- The `dd.mm.yy` / `hh.mm.ss` split used by `readHeader`:
`str.split(".").map(Number)` destructured into three components. -/
def splitMapNumber (s : List Char) : List (Option ℚ) :=
  (jsSplit '.' s).map jsNumber

/-- `EDFReader.readHeader()` minus caching (the pure parse of the byte
buffer): fixed-offset scalar fields, Y2K windowing
(`year >= 85 ? 1900+year : 2000+year`), and the column-major signal loop. -/
def readHeaderPure (text : List Char) : PHeader :=
  let headerText := text.take 256
  let dateComps := splitMapNumber (jsTrim ((headerText.drop 168).take 8))
  let timeComps := splitMapNumber (jsTrim ((headerText.drop 176).take 8))
  let year := dateComps.getD 2 none
  let fullYear := year.map (fun y => if 85 ≤ y then 1900 + y else 2000 + y)
  let signalCount := jsParseInt (jsTrim ((headerText.drop 252).take 4))
  let count : Nat := match signalCount with | some z => z.toNat | none => 0
  { version := jsTrim (headerText.take 8)
    patientId := jsTrim ((headerText.drop 8).take 80)
    recordingId := jsTrim ((headerText.drop 88).take 80)
    startTime :=
      { fullYear := fullYear
        monthIndex := (dateComps.getD 1 none).map (fun m => m - 1)
        day := dateComps.getD 0 none
        hour := timeComps.getD 0 none
        minute := timeComps.getD 1 none
        second := timeComps.getD 2 none }
    headerBytes := jsParseInt (jsTrim ((headerText.drop 184).take 8))
    reserved := jsTrim ((headerText.drop 192).take 44)
    dataRecords := jsParseInt (jsTrim ((headerText.drop 236).take 8))
    recordDuration := jsParseFloat (jsTrim ((headerText.drop 244).take 8))
    signalCount := signalCount
    signals := (List.range count).map (fun i =>
      { label := jsTrim (readFieldText text count 0 16 i)
        transducerType := jsTrim (readFieldText text count 16 96 i)
        physicalDimension := jsTrim (readFieldText text count 96 104 i)
        physicalMin := jsParseFloat (readFieldText text count 104 112 i)
        physicalMax := jsParseFloat (readFieldText text count 112 120 i)
        digitalMin := jsParseInt (readFieldText text count 120 128 i)
        digitalMax := jsParseInt (readFieldText text count 128 136 i)
        prefiltering := jsTrim (readFieldText text count 136 216 i)
        samplesPerRecord := jsParseInt (readFieldText text count 216 224 i)
        reserved := jsTrim (readFieldText text count 224 256 i) }) }

/-- One annotation as decoded by the reader: `onset`/`duration` are `none`
when the original is `NaN`/`undefined`. -/
structure PAnn where
  onset : Option ℚ
  duration : Option ℚ
  annText : List Char
deriving DecidableEq, Repr

/-- `EDFReader.parseTal(tal)` (newer reader source / dist build): split the
TAL on 0x14; the first part is `onset[0x15 duration]`; every later part
becomes one annotation record carrying that onset/duration. -/
def parseTal (tal : List Char) : List PAnn :=
  let parts := jsSplit sepChar tal
  let onsetDurationPart := parts.headD []
  let durationMarkerIndex := onsetDurationPart.findIdx? (fun c => c = durChar)
  let onsetStr :=
    match durationMarkerIndex with
    | some i => onsetDurationPart.take i
    | none => onsetDurationPart
  let durationStr : Option (List Char) :=
    match durationMarkerIndex with
    | some i => some (onsetDurationPart.drop (i + 1))
    | none => none
  let onset := jsParseFloat onsetStr
  let duration : Option ℚ :=
    match durationStr with
    | some ds => if ds.isEmpty then none else jsParseFloat ds
    | none => none
  (parts.drop 1).map (fun t => ⟨onset, duration, t⟩)

/-- Stable ascending insertion by onset, modelling
`annotations.sort((a, b) => a.onset - b.onset)` (JS `Array.prototype.sort` is
stable; a `NaN` onset, `none` here, makes the comparator implementation-defined
— the claims are only evaluated on parsed onsets, keyed here as `0`). -/
def insertByOnset (x : PAnn) : List PAnn → List PAnn
  | [] => [x]
  | y :: ys =>
    if (y.onset.getD 0) < (x.onset.getD 0) then y :: insertByOnset x ys
    else x :: y :: ys

/-- The sorted annotation list used by `getRecordTimestamp`. -/
def sortByOnset (l : List PAnn) : List PAnn := l.foldr insertByOnset []

/-- `EDFReader.getRecordTimestamp(recordNumber)` (newer reader source / dist
build), given the record's decoded annotation-channel text.  `hasAnnSignal`
is `annSignalIndex !== -1`; `text` is the decoded byte window of the record's
annotation signal (the pure offset arithmetic that extracts it from the
buffer is not repeated here).  The body: strip every null
(`.replace(/\0/g, "")`), split on null, drop whitespace-only chunks, parse
each chunk as a TAL, sort all entries by onset, then pick the earliest onset,
or the first non-zero onset when the earliest is `0` and the record index is
not, or fall back to `recordNumber * recordDuration`.  The result is `none`
when the returned JS number would be `NaN`. -/
def getRecordTimestampCore (hasAnnSignal : Bool) (text : List Char)
    (recordNumber : Nat) (recordDuration : ℚ) : Option ℚ :=
  if !hasAnnSignal then some ((recordNumber : ℚ) * recordDuration)
  else
    let stripped := text.filter (fun c => ¬(c = nulChar))
    let tals := (jsSplit nulChar stripped).filter (fun s => !(jsTrim s).isEmpty)
    let annsList := tals.flatMap parseTal
    match sortByOnset annsList with
    | [] => some ((recordNumber : ℚ) * recordDuration)
    | earliest :: restSorted =>
      if earliest.onset ≠ some 0 then earliest.onset
      else if recordNumber ≠ 0 then
        match (earliest :: restSorted).filter (fun a => ¬(a.onset = some 0)) with
        | [] => some ((recordNumber : ℚ) * recordDuration)
        | nz :: _ => nz.onset
      else some ((recordNumber : ℚ) * recordDuration)

/-- The mutable state relevant to `EDFReader.readHeader` caching: a heap of
`EDFHeader` objects (JS objects modelled as heap cells addressed by `Nat`
references) and the reader's `this.header` field holding a reference once the
first parse has happened. -/
structure ReaderMem where
  heap : List PHeader
  cacheRef : Option Nat
deriving DecidableEq, Repr

/-- Dereference a header object. -/
def heapGet (m : ReaderMem) (r : Nat) : PHeader :=
  m.heap.getD r (readHeaderPure [])

/-- A caller mutating a header object it was handed (e.g.
`h.patientId = ...`): updates the heap cell in place. -/
def mutateHeader (m : ReaderMem) (r : Nat) (f : PHeader → PHeader) : ReaderMem :=
  { m with heap := m.heap.set r (f (heapGet m r)) }

/-- `EDFReader.readHeader()` including its caching behaviour: on the first
call parse the bytes, store the object in `this.header`, and return
`_.cloneDeep(this.header)` (a fresh object); on every later call
`if (this.header) return this.header;` hands back the cached object itself
(the same reference, no clone). -/
def readHeaderOp (text : List Char) (m : ReaderMem) : Nat × ReaderMem :=
  match m.cacheRef with
  | some r => (r, m)
  | none =>
    let h := readHeaderPure text
    let storeRef := m.heap.length
    let heap1 := m.heap ++ [h]
    let cloneRef := heap1.length
    let heap2 := heap1 ++ [h]
    (cloneRef, { heap := heap2, cacheRef := some storeRef })

theorem digitChar_toNat (d : Nat) (h : d < 10) : (digitChar d).toNat = 48 + d := by
  interval_cases d <;> decide

theorem isDigitCh_digitChar (d : Nat) (h : d < 10) : isDigitCh (digitChar d) = true := by
  interval_cases d <;> decide

theorem digitsVal_append_singleton (xs : List Char) (c : Char) :
    digitsVal (xs ++ [c]) = digitsVal xs * 10 + (c.toNat - 48) := by
  simp [digitsVal, List.foldl_append]

theorem natToCharsAux_spec (fuel : Nat) :
    ∀ n, n < fuel →
      natToCharsAux fuel n ≠ [] ∧
      (∀ c ∈ natToCharsAux fuel n, isDigitCh c = true) ∧
      digitsVal (natToCharsAux fuel n) = n := by
  induction fuel with
  | zero => intro n hn; omega
  | succ fuel ih =>
    intro n hn
    by_cases h10 : n < 10
    · refine ⟨by simp [natToCharsAux, h10], ?_, ?_⟩
      · intro c hc
        simp [natToCharsAux, h10] at hc
        subst hc
        exact isDigitCh_digitChar n h10
      · simp [natToCharsAux, h10, digitsVal, digitChar_toNat n h10]
    · have hdiv : n / 10 < fuel := by
        have h1 : n / 10 < n := Nat.div_lt_self (by omega) (by omega)
        omega
      obtain ⟨hne, hdig, hval⟩ := ih (n / 10) hdiv
      refine ⟨by simp [natToCharsAux, h10], ?_, ?_⟩
      · intro c hc
        simp only [natToCharsAux, if_neg h10, List.mem_append, List.mem_singleton] at hc
        rcases hc with hc | hc
        · exact hdig c hc
        · subst hc
          exact isDigitCh_digitChar (n % 10) (Nat.mod_lt _ (by omega))
      · simp only [natToCharsAux, if_neg h10]
        rw [digitsVal_append_singleton, hval, digitChar_toNat (n % 10) (Nat.mod_lt _ (by omega))]
        omega

theorem natToChars_ne_nil (n : Nat) : natToChars n ≠ [] :=
  (natToCharsAux_spec (n + 1) n (Nat.lt_succ_self n)).1

theorem natToChars_digits (n : Nat) : ∀ c ∈ natToChars n, isDigitCh c = true :=
  (natToCharsAux_spec (n + 1) n (Nat.lt_succ_self n)).2.1

theorem natToChars_val (n : Nat) : digitsVal (natToChars n) = n :=
  (natToCharsAux_spec (n + 1) n (Nat.lt_succ_self n)).2.2

theorem natToCharsAux_length (fuel : Nat) :
    ∀ n k, n < fuel → n < 10 ^ k → 1 ≤ k → (natToCharsAux fuel n).length ≤ k := by
  induction fuel with
  | zero => intro n k hn; omega
  | succ fuel ih =>
    intro n k hn hk h1
    by_cases h10 : n < 10
    · simp [natToCharsAux, h10]; omega
    · have hk2 : 2 ≤ k := by
        by_contra hcon
        have hk1 : k = 1 := by omega
        rw [hk1] at hk
        simp at hk
        omega
      have hdiv : n / 10 < fuel := by
        have h1 : n / 10 < n := Nat.div_lt_self (by omega) (by omega)
        omega
      have hdivk : n / 10 < 10 ^ (k - 1) := by
        rw [Nat.div_lt_iff_lt_mul (by omega)]
        have : (10 : ℕ) ^ (k - 1) * 10 = 10 ^ k := by
          rw [← pow_succ]
          congr 1
          omega
        omega
      have := ih (n / 10) (k - 1) hdiv hdivk (by omega)
      simp only [natToCharsAux, if_neg h10, List.length_append, List.length_singleton]
      omega

theorem natToChars_length_le (n k : Nat) (hk : n < 10 ^ k) (h1 : 1 ≤ k) :
    (natToChars n).length ≤ k :=
  natToCharsAux_length (n + 1) n k (Nat.lt_succ_self n) hk h1

theorem fieldPad_length (s : List Char) (len : Nat) : (fieldPad s len).length = len := by
  simp [fieldPad]
  omega

theorem fieldPad_of_le (s : List Char) (len : Nat) (h : s.length ≤ len) :
    fieldPad s len = s ++ List.replicate (len - s.length) ' ' := by
  apply List.take_of_length_le
  simp
  omega

theorem dropWhile_replicate_append (m : Nat) (l : List Char) (p : Char → Bool)
    (hp : p ' ' = true) :
    List.dropWhile p (List.replicate m ' ' ++ l) = List.dropWhile p l := by
  induction m with
  | zero => simp
  | succ m ih =>
    rw [List.replicate_succ, List.cons_append, List.dropWhile_cons_of_pos (by simp [hp])]
    exact ih

theorem jsTrim_digits_pad (ds : List Char) (m : Nat) (hne : ds ≠ [])
    (hdig : ∀ c ∈ ds, isDigitCh c = true) :
    jsTrim (ds ++ List.replicate m ' ') = ds := by
  obtain ⟨c, cs, rfl⟩ := List.exists_cons_of_ne_nil hne
  have hc : isDigitCh c = true := hdig c (List.mem_cons_self c cs)
  have hcns : isSpaceCh c = false := by
    rcases Char.ext_iff.mp (rfl : c = c) with _
    simp only [isSpaceCh, decide_eq_false_iff_not]
    intro hcsp
    rw [hcsp] at hc
    simp [isDigitCh] at hc
  rw [jsTrim, List.cons_append]
  rw [List.dropWhile_cons_of_neg (by simp [hcns])]
  rw [← List.cons_append, List.reverse_append, List.reverse_replicate]
  rw [dropWhile_replicate_append m _ isSpaceCh (by decide)]
  have hlast : List.dropWhile isSpaceCh (c :: cs).reverse = (c :: cs).reverse := by
    rcases hrev : (c :: cs).reverse with _ | ⟨d, ds'⟩
    · simp at hrev
    · have hd : d ∈ (c :: cs) := by
        rw [← List.mem_reverse, hrev]
        exact List.mem_cons_self d ds'
      have hddig := hdig d hd
      have hdns : isSpaceCh d = false := by
        simp only [isSpaceCh, decide_eq_false_iff_not]
        intro hdsp
        rw [hdsp] at hddig
        simp [isDigitCh] at hddig
      rw [List.dropWhile_cons_of_neg (by simp [hdns])]
  rw [hlast, List.reverse_reverse]

theorem takeWhile_all (p : Char → Bool) (l : List Char) (h : ∀ c ∈ l, p c = true) :
    l.takeWhile p = l := by
  induction l with
  | nil => rfl
  | cons c cs ih =>
    rw [List.takeWhile_cons_of_pos (h c (List.mem_cons_self c cs))]
    rw [ih (fun d hd => h d (List.mem_cons_of_mem c hd))]

theorem jsParseInt_digits (ds : List Char) (hne : ds ≠ [])
    (hdig : ∀ c ∈ ds, isDigitCh c = true) :
    jsParseInt ds = some (digitsVal ds) := by
  obtain ⟨c, cs, rfl⟩ := List.exists_cons_of_ne_nil hne
  have hc : isDigitCh c = true := hdig c (List.mem_cons_self c cs)
  have hrange : 48 ≤ c.toNat ∧ c.toNat ≤ 57 := by
    simpa [isDigitCh] using hc
  have hcns : isSpaceCh c = false := by
    simp only [isSpaceCh, decide_eq_false_iff_not]
    intro hsp
    rw [hsp] at hrange
    revert hrange
    decide
  have hcminus : ¬(c = '-') := by
    intro hm
    rw [hm] at hrange
    revert hrange
    decide
  have hcplus : ¬(c = '+') := by
    intro hm
    rw [hm] at hrange
    revert hrange
    decide
  have htake : List.takeWhile isDigitCh (c :: cs) = c :: cs := takeWhile_all _ _ hdig
  have hdw : List.dropWhile isSpaceCh (c :: cs) = c :: cs :=
    List.dropWhile_cons_of_neg (by simp [hcns])
  simp [jsParseInt, hdw, hcminus, hcplus, htake]

theorem drop_take_of_prefix (p s t : List Char) (n k : Nat) (hp : p.length = n)
    (hs : s.length = k) : ((p ++ (s ++ t)).drop n).take k = s := by
  subst hp
  subst hs
  rw [List.drop_left, List.take_left]

/-- Everything in the encoded header after the reserved field. -/
def buildHeaderTail (header : WHeader) : List Char :=
  fieldPad (natToChars header.dataRecords) 8 ++
  fieldPad (toFixedChars header.recordDuration 6) 8 ++
  fieldPad (natToChars header.signalCount) 4 ++
  collectFields header.signals (fun s => s.label) 16 ++
  collectFields header.signals (fun s => s.transducerType) 80 ++
  collectFields header.signals (fun s => s.physicalDimension) 8 ++
  collectFields header.signals (fun s => jsNumToChars s.physicalMin) 8 ++
  collectFields header.signals (fun s => jsNumToChars s.physicalMax) 8 ++
  collectFields header.signals (fun s => jsNumToChars s.digitalMin) 8 ++
  collectFields header.signals (fun s => jsNumToChars s.digitalMax) 8 ++
  collectFields header.signals (fun s => s.prefiltering) 80 ++
  collectFields header.signals (fun s => natToChars s.samplesPerRecord) 8 ++
  collectFields header.signals (fun s => s.reserved) 32

theorem buildHeader_split (h : WHeader) (anns : Option (List Ann)) :
    buildHeader h anns =
      (fieldPad h.version 8 ++ fieldPad h.patientId 80 ++ fieldPad h.recordingId 80 ++
       fieldPad (formatDateDDMMYY h.startTime) 8 ++ fieldPad (formatTimeHHMMSS h.startTime) 8) ++
      (fieldPad (natToChars (256 + 256 * h.signalCount)) 8 ++
       (fieldPad (if (match anns with | some l => !l.isEmpty | none => false)
          then "EDF+C".data else []) 44 ++
        buildHeaderTail h)) := by
  simp [buildHeader, buildHeaderTail, List.append_assoc]

theorem headerBytes_prefix_length (h : WHeader) :
    (fieldPad h.version 8 ++ fieldPad h.patientId 80 ++ fieldPad h.recordingId 80 ++
     fieldPad (formatDateDDMMYY h.startTime) 8 ++
     fieldPad (formatTimeHHMMSS h.startTime) 8).length = 184 := by
  simp [fieldPad_length]

/-- Claim C1: for every caller-supplied header (whatever its `headerBytes`
field holds) whose recomputed size fits the 8-char field, encoding with
`EDFWriter.buildHeader` and decoding with `EDFReader.readHeader` yields
`headerBytes = 256 + 256 * signalCount`; and `buildHeader` never reads the
caller-supplied `headerBytes` at all. -/
theorem headerBytes_recomputed_roundtrip (h : WHeader) (anns : Option (List Ann))
    (hsc : 256 + 256 * h.signalCount < 100000000) :
    (readHeaderPure (buildHeader h anns)).headerBytes =
      some ((256 : ℤ) + 256 * (h.signalCount : ℤ)) ∧
    (∀ x : ℤ, buildHeader { h with headerBytes := x } anns = buildHeader h anns) := by
  constructor
  · have hlen : (natToChars (256 + 256 * h.signalCount)).length ≤ 8 :=
      natToChars_length_le _ 8 (by omega) (by omega)
    simp only [readHeaderPure]
    rw [List.drop_take, List.take_take]
    norm_num
    rw [buildHeader_split h anns,
      drop_take_of_prefix _ _ _ 184 8 (headerBytes_prefix_length h) (fieldPad_length _ _)]
    rw [fieldPad_of_le _ _ hlen,
      jsTrim_digits_pad _ _ (natToChars_ne_nil _) (natToChars_digits _),
      jsParseInt_digits _ (natToChars_ne_nil _) (natToChars_digits _),
      natToChars_val]
    simp
  · intro x
    rfl

/-- A concrete one-signal header used by several witnesses below; note its
deliberately wrong `headerBytes = 9999` and reserved `"EDF+D"`. -/
def sampleSignal : WSignal :=
  ⟨"EEG".data, [], "uV".data, -100, 100, -32768, 32767, [], 10, []⟩

/-- A concrete header fixture. -/
def sampleHeader : WHeader :=
  ⟨"0".data, "P".data, "R".data, ⟨2023, 1, 1, 0, 0, 0⟩, 9999, "EDF+D".data, 1, 1, 1,
    [sampleSignal]⟩

/-- Witness for C1: the stale `headerBytes = 9999` round-trips to `512`. -/
theorem headerBytes_recomputed_roundtrip_witness :
    256 + 256 * sampleHeader.signalCount < 100000000 ∧
    (readHeaderPure (buildHeader sampleHeader none)).headerBytes = some 512 :=
  ⟨by norm_num [sampleHeader],
   by
    have h := (headerBytes_recomputed_roundtrip sampleHeader none (by norm_num [sampleHeader])).1
    simpa [sampleHeader] using h⟩

theorem foldl_append_eq (f : Ann → List Char) (xs : List Ann) (init : List Char) :
    xs.foldl (fun t a => t ++ f a) init = init ++ (xs.map f).flatten := by
  induction xs generalizing init with
  | nil => simp
  | cons x xs ih => simp [ih, List.append_assoc]

/-- Claim C9: for every record, the encoded annotation block is the
duration-less timekeeping TAL at the record's nominal start
`recordIndex * recordDuration` (emitted also when no onset falls in the
window), followed by one TAL per annotation whose onset lies in
`[recordStart, recordStart + recordDuration)`, in order. -/
theorem annotationBlock_structure (l : List Ann) (recordDuration : ℚ) (recordNumber : Nat) :
    generateAnnotationBlock (some l) recordDuration recordNumber =
      timekeepTal ((recordNumber : ℚ) * recordDuration) ++
        ((l.filter (fun a =>
            decide ((recordNumber : ℚ) * recordDuration ≤ a.onset) &&
            decide (a.onset < (recordNumber : ℚ) * recordDuration + recordDuration))).map
          renderTal).flatten := by
  simp only [generateAnnotationBlock]
  rw [foldl_append_eq]

theorem validateSignals_error (records : Nat) :
    ∀ (sigs : List WSignal) (arrs : List (List ℚ)) (index : Nat),
      (∃ i, i < sigs.length ∧ i < arrs.length ∧
        (arrs.getD i []).length > (sigs.getD i annSignalDescriptor).samplesPerRecord * records) →
      ∃ i cur exp, cur > exp ∧
        validateSignals index records sigs arrs = .error (.dataTooLong i cur exp) := by
  intro sigs
  induction sigs with
  | nil =>
    intro arrs index ⟨i, hi, _, _⟩
    simp at hi
  | cons sig sigs ih =>
    intro arrs index hover
    match arrs with
    | [] =>
      obtain ⟨i, _, hj, _⟩ := hover
      simp at hj
    | arr :: arrs =>
      by_cases hhead : arr.length > sig.samplesPerRecord * records
      · refine ⟨index, arr.length, sig.samplesPerRecord * records, hhead, ?_⟩
        rw [validateSignals]
        rw [if_neg (by omega), if_pos (by omega)]
      · obtain ⟨i, hi, hj, hbig⟩ := hover
        have hipos : 0 < i := by
          by_contra h0
          have : i = 0 := by omega
          subst this
          simp at hbig
          omega
        obtain ⟨j, rfl⟩ : ∃ j, i = j + 1 := ⟨i - 1, by omega⟩
        have htail : ∃ i, i < sigs.length ∧ i < arrs.length ∧
            (arrs.getD i []).length >
              (sigs.getD i annSignalDescriptor).samplesPerRecord * records := by
          refine ⟨j, ?_, ?_, ?_⟩
          · simpa using Nat.lt_of_succ_lt_succ (by simpa using hi)
          · simpa using Nat.lt_of_succ_lt_succ (by simpa using hj)
          · simpa using hbig
        obtain ⟨i', cur, exp, hgt, heq⟩ := ih arrs (index + 1) htail
        by_cases hshort : arr.length < sig.samplesPerRecord * records
        · refine ⟨i', cur, exp, hgt, ?_⟩
          rw [validateSignals, if_pos hshort, heq]
        · refine ⟨i', cur, exp, hgt, ?_⟩
          rw [validateSignals, if_neg hshort, if_neg (by omega), heq]

/-- Claim C3: when some signal's sample array exceeds
`samplesPerRecord * dataRecords`, `EDFWriter.write` throws the
data-too-long error; no output buffer is produced (the `Except` is an
`error`, never a partial `ok`). -/
theorem write_data_too_long (h : WHeader) (signalData : List (List ℚ))
    (anns : Option (List Ann))
    (hshape : signalData.length = h.signalCount)
    (hsigs : h.signals.length = h.signalCount)
    (hover : ∃ i, i < h.signalCount ∧
      (signalData.getD i []).length >
        (h.signals.getD i annSignalDescriptor).samplesPerRecord * h.dataRecords) :
    ∃ i cur exp, cur > exp ∧
      write h signalData anns = .error (.dataTooLong i cur exp) := by
  obtain ⟨i, hi, hbig⟩ := hover
  obtain ⟨i', cur, exp, hgt, heq⟩ :=
    validateSignals_error h.dataRecords h.signals signalData 0
      ⟨i, by omega, by omega, hbig⟩
  refine ⟨i', cur, exp, hgt, ?_⟩
  rw [write, if_neg (by omega), heq]

/-- Witness for C3: one signal, one record, ten samples per record, but an
eleven-sample array: `write` returns the data-too-long error. -/
theorem write_data_too_long_witness :
    (List.replicate 11 (0 : ℚ)).length >
      sampleSignal.samplesPerRecord * sampleHeader.dataRecords ∧
    ∃ i cur exp, cur > exp ∧
      write sampleHeader [List.replicate 11 (0 : ℚ)] none =
        .error (.dataTooLong i cur exp) :=
  ⟨by norm_num [sampleSignal, sampleHeader],
   write_data_too_long sampleHeader [List.replicate 11 (0 : ℚ)] none
     (by norm_num [sampleHeader])
     (by norm_num [sampleHeader])
     ⟨0, by norm_num [sampleHeader], by norm_num [sampleHeader, sampleSignal]⟩⟩

/-- Claim C4 (code-bug evidence): a record whose annotation channel holds the
zeroed timekeeping TAL `+0.000 0x14 0x14 0x00` followed by the TAL
`+9.000 0x14 Event A 0x14 0x00`, queried as record index 1 with record
duration 1, yields timestamp `1` (`recordIndex * recordDuration`), not the `9`
the specification requires: `getRecordTimestamp` strips every null byte
*before* splitting on nulls, so all the record's TALs collapse into a single
TAL and every decoded entry inherits the first TAL's onset `0`, leaving no
non-zero onset for the documented fallback (the adjacent `readAnnotations`,
which splits before stripping, would decode the same bytes with onset `9`). -/
theorem getRecordTimestamp_zeroed_fallback_bug :
    getRecordTimestampCore true
      ("+0.000".data ++ [sepChar, sepChar, nulChar] ++ "+9.000".data ++ [sepChar] ++
        "Event A".data ++ [sepChar, nulChar]) 1 1 = some 1 ∧
    ¬ getRecordTimestampCore true
      ("+0.000".data ++ [sepChar, sepChar, nulChar] ++ "+9.000".data ++ [sepChar] ++
        "Event A".data ++ [sepChar, nulChar]) 1 1 = some 9 := by
  constructor <;> decide

/-- Claim C5 (code-bug evidence): `readHeader` caches the parsed header, and
the *first* call returns a `cloneDeep` copy — but every subsequent call
returns the cached object itself (`if (this.header) return this.header;`),
so a caller mutating the second call's result corrupts the cache: a third
call then observes the mutation instead of the parsed bytes. -/
theorem readHeader_cache_corruption_bug :
    (let b := List.replicate 256 ' '
     let p1 := readHeaderOp b ⟨[], none⟩
     let p2 := readHeaderOp b p1.2
     let s3 := mutateHeader p2.2 p2.1 (fun hd => { hd with patientId := "HACK".data })
     let p3 := readHeaderOp b s3
     some p2.1 = p2.2.cacheRef ∧
     heapGet p3.2 p3.1 = { readHeaderPure b with patientId := "HACK".data } ∧
     ¬ heapGet p3.2 p3.1 = readHeaderPure b) := by
  refine ⟨rfl, rfl, ?_⟩
  decide

theorem buildHeader_split192 (h : WHeader) (anns : Option (List Ann)) :
    buildHeader h anns =
      ((fieldPad h.version 8 ++ fieldPad h.patientId 80 ++ fieldPad h.recordingId 80 ++
        fieldPad (formatDateDDMMYY h.startTime) 8 ++ fieldPad (formatTimeHHMMSS h.startTime) 8) ++
       fieldPad (natToChars (256 + 256 * h.signalCount)) 8) ++
      (fieldPad (if (match anns with | some l => !l.isEmpty | none => false)
          then "EDF+C".data else []) 44 ++
       buildHeaderTail h) := by
  simp [buildHeader, buildHeaderTail, List.append_assoc]

theorem reserved_prefix_length (h : WHeader) :
    ((fieldPad h.version 8 ++ fieldPad h.patientId 80 ++ fieldPad h.recordingId 80 ++
      fieldPad (formatDateDDMMYY h.startTime) 8 ++ fieldPad (formatTimeHHMMSS h.startTime) 8) ++
     fieldPad (natToChars (256 + 256 * h.signalCount)) 8).length = 192 := by
  simp [fieldPad_length]

/-- Claim C6 (amended): the reserved field written by `EDFWriter.buildHeader`
is `"EDF+C"` exactly when a non-empty annotation list was supplied — also when
the caller declared a discontinuous recording — and the empty string
otherwise; the caller-supplied `header.reserved` is never written. -/
theorem reserved_field_forced (h : WHeader) (anns : Option (List Ann)) :
    (readHeaderPure (buildHeader h anns)).reserved =
      (if (match anns with | some l => !l.isEmpty | none => false)
        then "EDF+C".data else ([] : List Char)) := by
  simp only [readHeaderPure]
  rw [List.drop_take, List.take_take]
  norm_num
  rw [buildHeader_split192 h anns,
    drop_take_of_prefix _ _ _ 192 44 (reserved_prefix_length h) (fieldPad_length _ _)]
  generalize (match anns with | some l => !l.isEmpty | none => false) = b
  cases b <;> decide

/-- Claim C6 (counterexample to the claim as stated): `sampleHeader` declares
`reserved = "EDF+D"` (a discontinuous recording), yet supplying an annotation
list makes the writer emit `"EDF+C"`, not the caller's value. -/
theorem reserved_field_counterexample :
    sampleHeader.reserved = "EDF+D".data ∧
    (readHeaderPure (buildHeader sampleHeader (some [⟨0, none, "Start".data⟩]))).reserved =
      "EDF+C".data ∧
    ¬ (readHeaderPure (buildHeader sampleHeader (some [⟨0, none, "Start".data⟩]))).reserved =
      sampleHeader.reserved := by
  refine ⟨rfl, ?_, ?_⟩ <;> decide

theorem getD_append_length (l : List α) (x d : α) : (l ++ [x]).getD l.length d = x := by
  induction l with
  | nil => rfl
  | cons c cs ih => simp [ih]

theorem set_append_length (l : List α) (x y : α) : (l ++ [x]).set l.length y = l ++ [y] := by
  induction l with
  | nil => rfl
  | cons c cs ih => simp [ih]

theorem getD_set_self (l : List α) (i : Nat) (x d : α) (h : i < l.length) :
    (l.set i x).getD i d = x := by
  induction l generalizing i with
  | nil => simp at h
  | cons c cs ih =>
    match i with
    | 0 => rfl
    | i + 1 => exact ih i (by simpa using h)

theorem getD_set_ne (l : List α) (i j : Nat) (x d : α) (h : ¬ j = i) :
    (l.set i x).getD j d = l.getD j d := by
  induction l generalizing i j with
  | nil => simp
  | cons c cs ih =>
    match i, j with
    | 0, 0 => omega
    | 0, j + 1 => rfl
    | i + 1, 0 => rfl
    | i + 1, j + 1 => exact ih i j (by omega)

/-- Claim C10: constructing an `EDFWriter` with a non-empty annotation list
mutates the caller-supplied header and signal-data (modelled by the returned
pair) before `write()` can run: when no signal label contains
"EDF Annotations", the annotation descriptor is appended, `signalCount` is
incremented and `headerBytes` becomes `256 + 256 * signalCount`; in all cases
the annotation signal's `samplesPerRecord` is overwritten with the computed
minimum and the annotation entry of the signal-data array is extended /
zero-padded to `samplesPerRecord * dataRecords`, other entries untouched. -/
theorem configureAnnotationSignal_effects :
    (∀ (h : WHeader) (signalData : List (List ℚ)) (l : List Ann),
      l.isEmpty = false →
      jsFindIndex (fun sig => containsSeq annTag sig.label) h.signals = none →
      ∀ h' d', configureAnnotationSignal h signalData (some l) = .ok (h', d') →
        h'.signals = h.signals ++
          [{ annSignalDescriptor with
              samplesPerRecord := calculateMinimumAnnSamples l h.recordDuration h.dataRecords }] ∧
        h'.signalCount = h.signalCount + 1 ∧
        h'.headerBytes = 256 + 256 * ((h.signalCount : ℤ) + 1) ∧
        (d'.getD h.signals.length []).length =
          calculateMinimumAnnSamples l h.recordDuration h.dataRecords * h.dataRecords ∧
        (∀ j, ¬ j = h.signals.length → d'.getD j [] =
          (signalData ++
            List.replicate (h.signals.length + 1 - signalData.length) []).getD j [])) ∧
    (∀ (h : WHeader) (signalData : List (List ℚ)) (l : List Ann) (j : Nat),
      l.isEmpty = false →
      jsFindIndex (fun sig => containsSeq annTag sig.label) h.signals = some j →
      ∀ h' d', configureAnnotationSignal h signalData (some l) = .ok (h', d') →
        h'.signalCount = h.signalCount ∧
        h'.headerBytes = h.headerBytes ∧
        h'.signals = h.signals.set j
          { (h.signals.getD j annSignalDescriptor) with
              samplesPerRecord := calculateMinimumAnnSamples l h.recordDuration h.dataRecords } ∧
        (d'.getD j []).length =
          calculateMinimumAnnSamples l h.recordDuration h.dataRecords * h.dataRecords) := by
  constructor
  · intro h signalData l hl hfound h' d' heq
    simp only [configureAnnotationSignal, hl, hfound, Bool.false_eq_true, if_false] at heq
    have hd1len : h.signals.length <
        (signalData ++
          List.replicate (h.signals.length + 1 - signalData.length) []).length := by
      simp
      omega
    split_ifs at heq with h1 h2 h3
    · injection heq with hpair
      injection hpair with hh hd
      subst hh
      subst hd
      refine ⟨?_, rfl, rfl, ?_, ?_⟩
      · show (h.signals ++ [annSignalDescriptor]).set h.signals.length _ = _
        rw [getD_append_length, set_append_length]
      · rw [getD_set_self _ _ _ _ hd1len]
        simp
      · intro j hj
        exact getD_set_ne _ _ _ _ _ hj
    · injection heq with hpair
      injection hpair with hh hd
      subst hh
      subst hd
      refine ⟨?_, rfl, rfl, ?_, ?_⟩
      · show (h.signals ++ [annSignalDescriptor]).set h.signals.length _ = _
        rw [getD_append_length, set_append_length]
      · rw [getD_set_self _ _ _ _ hd1len]
        simp only [List.length_append, List.length_replicate]
        omega
      · intro j hj
        exact getD_set_ne _ _ _ _ _ hj
    · injection heq with hpair
      injection hpair with hh hd
      subst hh
      subst hd
      refine ⟨?_, rfl, rfl, ?_, ?_⟩
      · show (h.signals ++ [annSignalDescriptor]).set h.signals.length _ = _
        rw [getD_append_length, set_append_length]
      · omega
      · intro j hj
        rfl
  · intro h signalData l j hl hfound h' d' heq
    simp only [configureAnnotationSignal, hl, hfound, Bool.false_eq_true, if_false] at heq
    have hd1len : j <
        (signalData ++ List.replicate (j + 1 - signalData.length) []).length := by
      simp
      omega
    split_ifs at heq with h1 h2 h3
    · injection heq with hpair
      injection hpair with hh hd
      subst hh
      subst hd
      refine ⟨rfl, rfl, rfl, ?_⟩
      rw [getD_set_self _ _ _ _ hd1len]
      simp
    · injection heq with hpair
      injection hpair with hh hd
      subst hh
      subst hd
      refine ⟨rfl, rfl, rfl, ?_⟩
      rw [getD_set_self _ _ _ _ hd1len]
      simp only [List.length_append, List.length_replicate]
      omega
    · injection heq with hpair
      injection hpair with hh hd
      subst hh
      subst hd
      refine ⟨rfl, rfl, rfl, ?_⟩
      omega

/-- Witness for C10: configuring `sampleHeader` (no annotation signal) with
one annotation appends the descriptor, bumps `signalCount` to `2`, sets
`headerBytes = 768 = 256 + 256 * 2`, sizes the annotation signal at
`10` samples per record and allocates its zero-filled data array. -/
theorem configureAnnotationSignal_effects_witness :
    ([⟨1/2, none, "A".data⟩] : List Ann).isEmpty = false ∧
    jsFindIndex (fun sig => containsSeq annTag sig.label) sampleHeader.signals = none ∧
    configureAnnotationSignal sampleHeader [List.replicate 10 (0 : ℚ)]
        (some [⟨1/2, none, "A".data⟩]) =
      .ok ({ sampleHeader with
              signals := [sampleSignal, { annSignalDescriptor with samplesPerRecord := 10 }],
              signalCount := 2, headerBytes := 768 },
           [List.replicate 10 (0 : ℚ), List.replicate 10 (0 : ℚ)]) ∧
    (2 : Nat) = sampleHeader.signalCount + 1 ∧
    (768 : ℤ) = 256 + 256 * ((sampleHeader.signalCount : ℤ) + 1) ∧
    (([List.replicate 10 (0 : ℚ), List.replicate 10 (0 : ℚ)]).getD
        sampleHeader.signals.length []).length =
      calculateMinimumAnnSamples [⟨1/2, none, "A".data⟩] sampleHeader.recordDuration
        sampleHeader.dataRecords * sampleHeader.dataRecords := by
  have heq : configureAnnotationSignal sampleHeader [List.replicate 10 (0 : ℚ)]
      (some [⟨1/2, none, "A".data⟩]) =
      .ok ({ sampleHeader with
              signals := [sampleSignal, { annSignalDescriptor with samplesPerRecord := 10 }],
              signalCount := 2, headerBytes := 768 },
           [List.replicate 10 (0 : ℚ), List.replicate 10 (0 : ℚ)]) := by
    rfl
  obtain ⟨_, hcount, hbytes, hlen, _⟩ :=
    (configureAnnotationSignal_effects).1 sampleHeader [List.replicate 10 (0 : ℚ)]
      [⟨1/2, none, "A".data⟩] rfl (by decide) _ _ heq
  exact ⟨rfl, by decide, heq, hcount, hbytes, hlen⟩
